import Mathlib

/-!
Verification of the embedded-gcov core (`src/code/gcov_gcc.c`).

The development shallowly embeds the C data model (`struct gcov_ctr_info`,
`struct gcov_fn_info`, `struct gcov_info`) and the three leaf operations
(`gcov_convert_to_gcda`, `gcov_clear_counters`, `gcov_info_filename`).
The destination buffer is modelled as a word-addressed memory `Nat → Nat`
(each cell one `gcov_unsigned_t`), wrapped in `Option`: `none` models the
`NULL` buffer of the size-only path.  The coverage tree itself is carried
through the encoder as part of a `Mem` state so that frame properties
about it can be stated.

The tag constants come from `gcov_gcc.h`, which is not part of the sources
here; they are modelled from the specification as opaque fixed words.
-/

/-- Word-addressed 32-bit buffer memory: index `i` holds the `i`-th
`gcov_unsigned_t` cell. -/
def Buf : Type := Nat → Nat

/-- `struct gcov_ctr_info`: number of counter values and the values array
(64-bit execution counters, `gcov_type`). -/
structure gcov_ctr_info where
  num : Nat
  values : List Nat
deriving Inhabited

/-- `struct gcov_fn_info`: per-function metadata and the trailing array of
counter groups.  The `key` field (a comdat back-pointer that the encoder and
reset never read) is omitted. -/
structure gcov_fn_info where
  ident : Nat
  lineno_checksum : Nat
  cfg_checksum : Nat
  ctrs : List gcov_ctr_info
deriving Inhabited

/-- `struct gcov_info`: per-translation-unit coverage data.  The `merge`
array of function pointers is modelled by its observable content: a list of
`Bool`, one per counter-kind slot, `true` iff the merge pointer is non-null
(the slot is active).  The `next` registry pointer, external to this core,
is omitted. -/
structure gcov_info where
  version : Nat
  stamp : Nat
  checksum : Nat
  filename : String
  merge : List Bool
  n_functions : Nat
  functions : List gcov_fn_info
deriving Inhabited

/-- The memory the encoder touches: the optional destination buffer
(`none` = `NULL`) and the coverage tree. -/
structure Mem where
  buffer : Option Buf
  info : gcov_info

/-- Modelled from the spec: `gcov_gcc.h` is not among the sources.  The
reserved magic tag of the data-file header (spec §6 `MAGIC_TAG`); its
numeric value is opaque to every claim. -/
def GCOV_DATA_MAGIC : Nat := 0x67636461

/-- Modelled from the spec: `gcov_gcc.h` is not among the sources.  The tag
of a function record (spec §6 `FUNCTION_TAG`); opaque value. -/
def GCOV_TAG_FUNCTION : Nat := 0x01000000

/-- Modelled from the spec: `gcov_gcc.h` is not among the sources.  The
word length of a function record body: identity plus two checksums
(spec §4.1: "length is a compile-time constant: identity + two checksums =
3 words"). -/
def GCOV_TAG_FUNCTION_LENGTH : Nat := 3

/-- Modelled from the spec: `gcov_gcc.h` is not among the sources.  The tag
identifying counter kind `ct_idx` (spec §6 `COUNTER_TAG(kind)`); an
injective opaque mapping from slot index to tag word. -/
def GCOV_TAG_FOR_COUNTER (ct_idx : Nat) : Nat := 0x01a10000 + ct_idx * 131072

/-- Modelled from the spec: `gcov_gcc.h` is not among the sources.  The
word length of a counter-group body: `2 * count` (spec §6: counter-group
record length is `2*count`, two words per 64-bit value). -/
def GCOV_TAG_COUNTER_LENGTH (num : Nat) : Nat := 2 * num

/-- `gcov_info_filename`: trivial accessor returning `info->filename`. -/
def gcov_info_filename (info : gcov_info) : String :=
  info.filename

/-- `store_gcov_unsigned`: store a 32-bit number at word offset `off` when a
buffer is present; return the count of buffer units stored
(`sizeof(*data)/sizeof(*buffer) = 1`). -/
def store_gcov_unsigned (m : Mem) (off : Nat) (v : Nat) : Mem × Nat :=
  match m.buffer with
  | some data =>
    ({ m with buffer := some (fun i => if i = off then v else data i) }, 1)
  | none => (m, 1)

/-- `store_gcov_tag_length`: store a 32-bit tag at `off` (`data[0] = tag`)
and a 32-bit length at `off + 1` (`data[1] = length`) when a buffer is
present; return 2 buffer units. -/
def store_gcov_tag_length (m : Mem) (off : Nat) (tag : Nat) (length : Nat) : Mem × Nat :=
  match m.buffer with
  | some data =>
    let d0 : Buf := fun i => if i = off then tag else data i
    let d1 : Buf := fun i => if i = off + 1 then length else d0 i
    ({ m with buffer := some d1 }, 2)
  | none => (m, 2)

/-- `store_gcov_counter`: store a 64-bit counter as two 32-bit words, the
low part first (`data[0] = v & 0xffffffff`, `data[1] = v >> 32`, the second
assignment narrowing to 32 bits); return 2 buffer units. -/
def store_gcov_counter (m : Mem) (off : Nat) (v : Nat) : Mem × Nat :=
  match m.buffer with
  | some data =>
    let d0 : Buf := fun i => if i = off then v % 4294967296 else data i
    let d1 : Buf := fun i => if i = off + 1 then (v / 4294967296) % 4294967296 else d0 i
    ({ m with buffer := some d1 }, 2)
  | none => (m, 2)

/-- The innermost loop of `gcov_convert_to_gcda`
(`for (cv_idx = 0; cv_idx < ci_ptr->num; cv_idx++) pos += store_gcov_counter(...)`):
`num` iterations remain and `values` is the cursor `ci_ptr->values + cv_idx`. -/
def convert_values_loop (m : Mem) (pos : Nat) (num : Nat) (values : List Nat) : Mem × Nat :=
  match num with
  | 0 => (m, pos)
  | n + 1 =>
    let r := store_gcov_counter m pos (values.headD 0)
    convert_values_loop r.1 (pos + r.2) n values.tail

/-- The counter-kind loop of `gcov_convert_to_gcda`
(`for (ct_idx = 0; ct_idx < GCOV_COUNTERS; ct_idx++)`): `ms` is the
remaining suffix of the unit's `merge` array, `ct_idx` the current slot
index, and `ctrs` the cursor `ci_ptr` into the function's trailing counter
array, advanced only on active slots. -/
def convert_counters_loop (m : Mem) (pos : Nat) (ct_idx : Nat) (ms : List Bool)
    (ctrs : List gcov_ctr_info) : Mem × Nat :=
  match ms with
  | [] => (m, pos)
  | mg :: ms' =>
    if mg then
      let ci := ctrs.headD default
      let r1 := store_gcov_tag_length m pos (GCOV_TAG_FOR_COUNTER ct_idx)
        (GCOV_TAG_COUNTER_LENGTH ci.num)
      let r2 := convert_values_loop r1.1 (pos + r1.2) ci.num ci.values
      convert_counters_loop r2.1 r2.2 (ct_idx + 1) ms' ctrs.tail
    else
      convert_counters_loop m pos (ct_idx + 1) ms' ctrs

/-- The function loop of `gcov_convert_to_gcda`
(`for (fi_idx = 0; fi_idx < gi_ptr->n_functions; fi_idx++)`): `n`
iterations remain and `fns` is the cursor into `gi_ptr->functions`.  Each
iteration emits the function record and then its counter records, reading
the merge array from the current state. -/
def convert_functions_loop (m : Mem) (pos : Nat) (n : Nat) (fns : List gcov_fn_info) : Mem × Nat :=
  match n with
  | 0 => (m, pos)
  | k + 1 =>
    let fi := fns.headD default
    let r1 := store_gcov_tag_length m pos GCOV_TAG_FUNCTION GCOV_TAG_FUNCTION_LENGTH
    let r2 := store_gcov_unsigned r1.1 (pos + r1.2) fi.ident
    let r3 := store_gcov_unsigned r2.1 (pos + r1.2 + r2.2) fi.lineno_checksum
    let r4 := store_gcov_unsigned r3.1 (pos + r1.2 + r2.2 + r3.2) fi.cfg_checksum
    let r5 := convert_counters_loop r4.1 (pos + r1.2 + r2.2 + r3.2 + r4.2) 0
      r4.1.info.merge fi.ctrs
    convert_functions_loop r5.1 r5.2 k fns.tail

/-- `gcov_convert_to_gcda`: emit the file header then every function's
records, returning the final memory and the byte count
(`pos * sizeof(*buffer)`, with 4-byte `gcov_unsigned_t` cells). -/
def gcov_convert_to_gcda (m : Mem) : Mem × Nat :=
  let gi := m.info
  let r1 := store_gcov_tag_length m 0 GCOV_DATA_MAGIC gi.version
  let r2 := store_gcov_unsigned r1.1 r1.2 gi.stamp
  let r3 := store_gcov_unsigned r2.1 (r1.2 + r2.2) gi.checksum
  let r4 := convert_functions_loop r3.1 (r1.2 + r2.2 + r3.2) gi.n_functions gi.functions
  (r4.1, r4.2 * 4)

/-- The innermost loop of `gcov_clear_counters`
(`for (cv_idx = 0; cv_idx < ci_ptr->num; cv_idx++) ci_ptr->values[cv_idx] = 0;`):
zero the first `num` cells of the values array. -/
def clear_values_loop (num : Nat) (values : List Nat) : List Nat :=
  match num, values with
  | 0, vs => vs
  | _ + 1, [] => []
  | n + 1, _ :: vs => 0 :: clear_values_loop n vs

/-- The counter-kind loop of `gcov_clear_counters`: walk the merge suffix
`ms`, advancing the `ci_ptr` cursor only on active slots and zeroing that
group's values. -/
def clear_counters_loop (ms : List Bool) (ctrs : List gcov_ctr_info) : List gcov_ctr_info :=
  match ms with
  | [] => ctrs
  | mg :: ms' =>
    if mg then
      match ctrs with
      | [] => []
      | ci :: rest => { ci with values := clear_values_loop ci.num ci.values } :: clear_counters_loop ms' rest
    else
      clear_counters_loop ms' ctrs

/-- The function loop of `gcov_clear_counters`: clear the counters of the
first `n` functions. -/
def clear_functions_loop (merge : List Bool) (n : Nat) (fns : List gcov_fn_info) : List gcov_fn_info :=
  match n, fns with
  | 0, rest => rest
  | _ + 1, [] => []
  | k + 1, fi :: rest =>
    { fi with ctrs := clear_counters_loop merge fi.ctrs } :: clear_functions_loop merge k rest

/-- `gcov_clear_counters`: set every counter value of every active counter
group of every function to zero, in place. -/
def gcov_clear_counters (gi : gcov_info) : gcov_info :=
  { gi with functions := clear_functions_loop gi.merge gi.n_functions gi.functions }

/-- Ascending indices of the active slots of a counter-kind mask, starting
the numbering at `ct_idx` (spec §3: active slots "in ascending slot
order"). -/
def activeSlotsFrom (ct_idx : Nat) : List Bool → List Nat
  | [] => []
  | true :: ms => ct_idx :: activeSlotsFrom (ct_idx + 1) ms
  | false :: ms => activeSlotsFrom (ct_idx + 1) ms

/-- Ascending indices of the active slots of a counter-kind mask. -/
def activeSlots (merge : List Bool) : List Nat :=
  activeSlotsFrom 0 merge

/-- Number of active slots in a counter-kind mask. -/
def countActive : List Bool → Nat
  | [] => 0
  | true :: ms => countActive ms + 1
  | false :: ms => countActive ms

/-- Spec §6 wire grammar: a 64-bit counter value as two 32-bit words, the
low 32 bits first, then the upper 32 bits. -/
def specCounterWords (v : Nat) : List Nat :=
  [v % 4294967296, v / 4294967296]

/-- Spec §6 wire grammar: a counter-group record for active slot `p.1` with
group `p.2`: the pair `[COUNTER_TAG(kind), 2*count]` then the values. -/
def specGroupWords (p : Nat × gcov_ctr_info) : List Nat :=
  [GCOV_TAG_FOR_COUNTER p.1, 2 * p.2.num] ++ p.2.values.flatMap specCounterWords

/-- Spec §6 wire grammar: a function record
`[FUNCTION_TAG, 3][identity][lineChecksum][structureChecksum]` followed by
one counter-group record per active slot of the mask, in ascending slot
order, consuming the function's groups positionally. -/
def specFunctionWords (merge : List Bool) (fi : gcov_fn_info) : List Nat :=
  [GCOV_TAG_FUNCTION, 3, fi.ident, fi.lineno_checksum, fi.cfg_checksum]
    ++ ((activeSlots merge).zip fi.ctrs).flatMap specGroupWords

/-- Spec §6 wire grammar: the whole stream — the header record
`[MAGIC_TAG, formatVersion][buildStamp][checksum]` then one function record
per function, in the unit's function order. -/
def specStream (gi : gcov_info) : List Nat :=
  [GCOV_DATA_MAGIC, gi.version, gi.stamp, gi.checksum]
    ++ gi.functions.flatMap (specFunctionWords gi.merge)

/-- Structural validity of a counter group: the stored count matches the
length of the values array, and every value fits the 64-bit counter type. -/
def ctr_wf (ci : gcov_ctr_info) : Prop :=
  ci.num = ci.values.length ∧ ∀ v ∈ ci.values, v < 18446744073709551616

/-- Structural validity of a function record: exactly one counter group per
active slot of the owning unit's mask, each group itself valid. -/
def fn_wf (merge : List Bool) (fi : gcov_fn_info) : Prop :=
  fi.ctrs.length = (activeSlots merge).length ∧ ∀ ci ∈ fi.ctrs, ctr_wf ci

/-- Structural validity of a coverage unit: the function count matches the
function array, and every function record is valid for the unit's mask. -/
def info_wf (gi : gcov_info) : Prop :=
  gi.n_functions = gi.functions.length ∧ ∀ fi ∈ gi.functions, fn_wf gi.merge fi

instance (ci : gcov_ctr_info) : Decidable (ctr_wf ci) :=
  inferInstanceAs (Decidable (ci.num = ci.values.length ∧ ∀ v ∈ ci.values, v < 18446744073709551616))

instance (merge : List Bool) (fi : gcov_fn_info) : Decidable (fn_wf merge fi) :=
  inferInstanceAs (Decidable (fi.ctrs.length = (activeSlots merge).length ∧ ∀ ci ∈ fi.ctrs, ctr_wf ci))

instance (gi : gcov_info) : Decidable (info_wf gi) :=
  inferInstanceAs (Decidable (gi.n_functions = gi.functions.length ∧ ∀ fi ∈ gi.functions, fn_wf gi.merge fi))

/-- Write the words `ws` into buffer `f` at consecutive offsets starting at
`pos`. -/
def writeList (f : Buf) (pos : Nat) : List Nat → Buf
  | [] => f
  | w :: ws => writeList (fun i => if i = pos then w else f i) (pos + 1) ws

theorem writeList_nil (f : Buf) (pos : Nat) : writeList f pos [] = f :=
  rfl

theorem writeList_append (f : Buf) (pos : Nat) (l₁ l₂ : List Nat) :
    writeList f pos (l₁ ++ l₂) = writeList (writeList f pos l₁) (pos + l₁.length) l₂ := by
  induction l₁ generalizing f pos with
  | nil => simp [writeList]
  | cons w ws ih =>
    show writeList _ (pos + 1) (ws ++ l₂) = _
    rw [ih]
    have h : pos + (ws.length + 1) = pos + 1 + ws.length := by omega
    simp [writeList, h]

theorem writeList_ge (f : Buf) (pos : Nat) (ws : List Nat) (i : Nat)
    (h : pos + ws.length ≤ i) : writeList f pos ws i = f i := by
  induction ws generalizing f pos with
  | nil => rfl
  | cons w ws ih =>
    simp only [List.length_cons] at h
    show writeList _ (pos + 1) ws i = f i
    rw [ih _ _ (by omega)]
    have hip : i ≠ pos := by omega
    simp [hip]

theorem store_gcov_unsigned_eq (b : Option Buf) (gi : gcov_info) (off v : Nat) :
    store_gcov_unsigned ⟨b, gi⟩ off v
      = (⟨b.map (fun f => writeList f off [v]), gi⟩, 1) := by
  cases b with
  | none => rfl
  | some f => simp [store_gcov_unsigned, writeList]

theorem store_gcov_tag_length_eq (b : Option Buf) (gi : gcov_info) (off tag length : Nat) :
    store_gcov_tag_length ⟨b, gi⟩ off tag length
      = (⟨b.map (fun f => writeList f off [tag, length]), gi⟩, 2) := by
  cases b with
  | none => rfl
  | some f =>
    have h : (fun i => if i = off + 1 then length else if i = off then tag else f i)
        = writeList f off [tag, length] := by
      funext i
      simp [writeList]
    simp [store_gcov_tag_length, ← h]

theorem store_gcov_counter_eq (b : Option Buf) (gi : gcov_info) (off v : Nat)
    (h : v < 18446744073709551616) :
    store_gcov_counter ⟨b, gi⟩ off v
      = (⟨b.map (fun f => writeList f off (specCounterWords v)), gi⟩, 2) := by
  have hdiv : v / 4294967296 < 4294967296 :=
    (Nat.div_lt_iff_lt_mul (by norm_num)).mpr (by omega)
  cases b with
  | none => rfl
  | some f =>
    have h2 : (fun i => if i = off + 1 then (v / 4294967296) % 4294967296
          else if i = off then v % 4294967296 else f i)
        = writeList f off (specCounterWords v) := by
      funext i
      simp [writeList, specCounterWords, Nat.mod_eq_of_lt hdiv]
    simp [store_gcov_counter, ← h2]

theorem convert_values_loop_eq (gi : gcov_info) (b : Option Buf) (pos : Nat) (values : List Nat)
    (hb : ∀ v ∈ values, v < 18446744073709551616) :
    convert_values_loop ⟨b, gi⟩ pos values.length values
      = (⟨b.map (fun f => writeList f pos (values.flatMap specCounterWords)), gi⟩,
         pos + 2 * values.length) := by
  induction values generalizing b pos with
  | nil => cases b <;> simp [convert_values_loop, writeList]
  | cons v vs ih =>
    have hv : v < 18446744073709551616 := hb v (List.mem_cons_self ..)
    have hvs : ∀ u ∈ vs, u < 18446744073709551616 := fun u hu => hb u (List.mem_cons_of_mem _ hu)
    simp only [List.length_cons]
    have step : convert_values_loop ⟨b, gi⟩ pos (vs.length + 1) (v :: vs)
        = convert_values_loop (store_gcov_counter ⟨b, gi⟩ pos v).1
            (pos + (store_gcov_counter ⟨b, gi⟩ pos v).2) vs.length vs := rfl
    rw [step, store_gcov_counter_eq _ _ _ _ hv]
    simp only
    rw [ih _ _ hvs, Option.map_map]
    have hcomp : ((fun f => writeList f (pos + 2) (vs.flatMap specCounterWords)) ∘
          (fun f => writeList f pos (specCounterWords v)))
        = fun f => writeList f pos ((v :: vs).flatMap specCounterWords) := by
      funext f
      rw [List.flatMap_cons, writeList_append]
      simp [specCounterWords, Function.comp]
    rw [hcomp]
    have harith : pos + 2 + 2 * vs.length = pos + 2 * (vs.length + 1) := by omega
    rw [harith]

theorem length_flatMap_specCounterWords (l : List Nat) :
    (l.flatMap specCounterWords).length = 2 * l.length := by
  induction l with
  | nil => rfl
  | cons v vs ih => simp [List.flatMap_cons, specCounterWords, ih]; omega

theorem convert_counters_loop_eq (gi : gcov_info) (b : Option Buf) (pos ct_idx : Nat)
    (ms : List Bool) (ctrs : List gcov_ctr_info)
    (hlen : ctrs.length = (activeSlotsFrom ct_idx ms).length)
    (hwf : ∀ ci ∈ ctrs, ctr_wf ci) :
    convert_counters_loop ⟨b, gi⟩ pos ct_idx ms ctrs
      = (⟨b.map (fun f =>
            writeList f pos (((activeSlotsFrom ct_idx ms).zip ctrs).flatMap specGroupWords)), gi⟩,
         pos + (((activeSlotsFrom ct_idx ms).zip ctrs).flatMap specGroupWords).length) := by
  induction ms generalizing b pos ct_idx ctrs with
  | nil =>
    have hc : ctrs = [] := List.length_eq_zero.mp (by simpa [activeSlotsFrom] using hlen)
    subst hc
    cases b <;> simp [convert_counters_loop, activeSlotsFrom, writeList]
  | cons mg ms' ih =>
    cases mg with
    | false =>
      have hstep : convert_counters_loop ⟨b, gi⟩ pos ct_idx (false :: ms') ctrs
          = convert_counters_loop ⟨b, gi⟩ pos (ct_idx + 1) ms' ctrs := rfl
      have hlen' : ctrs.length = (activeSlotsFrom (ct_idx + 1) ms').length := by
        simpa [activeSlotsFrom] using hlen
      rw [hstep, ih _ _ _ _ hlen' hwf]
      simp [activeSlotsFrom]
    | true =>
      cases ctrs with
      | nil => exact absurd hlen (by simp [activeSlotsFrom])
      | cons ci rest =>
        have hci : ctr_wf ci := hwf ci (List.mem_cons_self ..)
        have hrest : ∀ c ∈ rest, ctr_wf c := fun c hc => hwf c (List.mem_cons_of_mem _ hc)
        have hlen' : rest.length = (activeSlotsFrom (ct_idx + 1) ms').length := by
          simpa [activeSlotsFrom] using hlen
        have hstep : convert_counters_loop ⟨b, gi⟩ pos ct_idx (true :: ms') (ci :: rest)
            = (let r1 := store_gcov_tag_length ⟨b, gi⟩ pos (GCOV_TAG_FOR_COUNTER ct_idx)
                  (GCOV_TAG_COUNTER_LENGTH ci.num)
               let r2 := convert_values_loop r1.1 (pos + r1.2) ci.num ci.values
               convert_counters_loop r2.1 r2.2 (ct_idx + 1) ms' rest) := rfl
        rw [hstep]
        simp only [store_gcov_tag_length_eq]
        rw [show ci.num = ci.values.length from hci.1]
        rw [convert_values_loop_eq gi _ _ _ hci.2]
        simp only
        rw [ih _ _ _ _ hlen' hrest, Option.map_map, Option.map_map]
        have hW : ((activeSlotsFrom ct_idx (true :: ms')).zip (ci :: rest)).flatMap specGroupWords
            = ([GCOV_TAG_FOR_COUNTER ct_idx, GCOV_TAG_COUNTER_LENGTH ci.values.length]
                ++ ci.values.flatMap specCounterWords)
              ++ ((activeSlotsFrom (ct_idx + 1) ms').zip rest).flatMap specGroupWords := by
          simp [activeSlotsFrom, List.zip_cons_cons, List.flatMap_cons, specGroupWords,
            GCOV_TAG_COUNTER_LENGTH, hci.1, List.append_assoc]
        rw [hW]
        have hfun : ∀ f : Buf,
            writeList (writeList (writeList f pos
                [GCOV_TAG_FOR_COUNTER ct_idx, GCOV_TAG_COUNTER_LENGTH ci.values.length])
                (pos + 2) (ci.values.flatMap specCounterWords))
              (pos + 2 + 2 * ci.values.length)
              (((activeSlotsFrom (ct_idx + 1) ms').zip rest).flatMap specGroupWords)
            = writeList f pos
                ([GCOV_TAG_FOR_COUNTER ct_idx, GCOV_TAG_COUNTER_LENGTH ci.values.length]
                  ++ (ci.values.flatMap specCounterWords
                    ++ ((activeSlotsFrom (ct_idx + 1) ms').zip rest).flatMap specGroupWords)) := by
          intro f
          rw [writeList_append, writeList_append]
          simp only [List.length_cons, List.length_nil, length_flatMap_specCounterWords,
            Nat.zero_add, Nat.add_zero]
        cases b with
        | none =>
          simp only [Option.map_none']
          congr 1
          simp only [List.length_append, List.length_cons, List.length_nil,
            length_flatMap_specCounterWords]
          omega
        | some f =>
          simp only [Option.map_some']
          congr 1
          · congr 1
            simp only [Function.comp]
            rw [hfun f]
            simp [List.append_assoc]
          · simp only [List.length_append, List.length_cons, List.length_nil,
              length_flatMap_specCounterWords]
            omega

theorem convert_functions_loop_eq (gi : gcov_info) (b : Option Buf) (pos : Nat)
    (fns : List gcov_fn_info)
    (hwf : ∀ fi ∈ fns, fn_wf gi.merge fi) :
    convert_functions_loop ⟨b, gi⟩ pos fns.length fns
      = (⟨b.map (fun f => writeList f pos (fns.flatMap (specFunctionWords gi.merge))), gi⟩,
         pos + (fns.flatMap (specFunctionWords gi.merge)).length) := by
  induction fns generalizing b pos with
  | nil => cases b <;> simp [convert_functions_loop, writeList]
  | cons fi fns ih =>
    have hfi : fn_wf gi.merge fi := hwf fi (List.mem_cons_self ..)
    have hfns : ∀ g ∈ fns, fn_wf gi.merge g := fun g hg => hwf g (List.mem_cons_of_mem _ hg)
    simp only [List.length_cons]
    have hstep : convert_functions_loop ⟨b, gi⟩ pos (fns.length + 1) (fi :: fns)
        = (let r1 := store_gcov_tag_length ⟨b, gi⟩ pos GCOV_TAG_FUNCTION GCOV_TAG_FUNCTION_LENGTH
           let r2 := store_gcov_unsigned r1.1 (pos + r1.2) fi.ident
           let r3 := store_gcov_unsigned r2.1 (pos + r1.2 + r2.2) fi.lineno_checksum
           let r4 := store_gcov_unsigned r3.1 (pos + r1.2 + r2.2 + r3.2) fi.cfg_checksum
           let r5 := convert_counters_loop r4.1 (pos + r1.2 + r2.2 + r3.2 + r4.2) 0
             r4.1.info.merge fi.ctrs
           convert_functions_loop r5.1 r5.2 fns.length fns) := rfl
    rw [hstep]
    simp only [store_gcov_tag_length_eq, store_gcov_unsigned_eq]
    rw [convert_counters_loop_eq gi _ _ 0 gi.merge fi.ctrs hfi.1 hfi.2]
    simp only
    rw [ih _ _ hfns]
    have hWf : specFunctionWords gi.merge fi
        = ([GCOV_TAG_FUNCTION, GCOV_TAG_FUNCTION_LENGTH] ++ ([fi.ident] ++ ([fi.lineno_checksum]
            ++ ([fi.cfg_checksum]
              ++ ((activeSlotsFrom 0 gi.merge).zip fi.ctrs).flatMap specGroupWords)))) := rfl
    have hfull : ∀ f : Buf,
        writeList (writeList (writeList (writeList (writeList f pos
              [GCOV_TAG_FUNCTION, GCOV_TAG_FUNCTION_LENGTH])
            (pos + 2) [fi.ident])
            (pos + 2 + 1) [fi.lineno_checksum])
            (pos + 2 + 1 + 1) [fi.cfg_checksum])
            (pos + 2 + 1 + 1 + 1)
            (((activeSlotsFrom 0 gi.merge).zip fi.ctrs).flatMap specGroupWords)
        = writeList f pos (specFunctionWords gi.merge fi) := by
      intro f
      rw [hWf, writeList_append, writeList_append, writeList_append, writeList_append]
      simp only [List.length_cons, List.length_nil, Nat.zero_add, Nat.add_zero]
    cases b with
    | none =>
      simp only [Option.map_none']
      congr 1
      simp only [List.flatMap_cons, List.length_append]
      rw [hWf]
      simp only [List.length_append, List.length_cons, List.length_nil]
      omega
    | some f =>
      simp only [Option.map_some']
      congr 1
      · congr 1
        rw [hfull f]
        rw [show pos + 2 + 1 + 1 + 1
              + (((activeSlotsFrom 0 gi.merge).zip fi.ctrs).flatMap specGroupWords).length
            = pos + (specFunctionWords gi.merge fi).length by
          rw [hWf]
          simp only [List.length_append, List.length_cons, List.length_nil]
          omega]
        rw [← writeList_append, List.flatMap_cons]
      · simp only [List.flatMap_cons, List.length_append]
        rw [hWf]
        simp only [List.length_append, List.length_cons, List.length_nil]
        omega

theorem gcda_bridge (b : Option Buf) (gi : gcov_info) (h : info_wf gi) :
    gcov_convert_to_gcda ⟨b, gi⟩
      = (⟨b.map (fun f => writeList f 0 (specStream gi)), gi⟩, (specStream gi).length * 4) := by
  have hSS : specStream gi
      = ([GCOV_DATA_MAGIC, gi.version] ++ ([gi.stamp] ++ ([gi.checksum]
          ++ gi.functions.flatMap (specFunctionWords gi.merge)))) := rfl
  have hstep : gcov_convert_to_gcda ⟨b, gi⟩
      = (let r1 := store_gcov_tag_length ⟨b, gi⟩ 0 GCOV_DATA_MAGIC gi.version
         let r2 := store_gcov_unsigned r1.1 r1.2 gi.stamp
         let r3 := store_gcov_unsigned r2.1 (r1.2 + r2.2) gi.checksum
         let r4 := convert_functions_loop r3.1 (r1.2 + r2.2 + r3.2) gi.n_functions gi.functions
         (r4.1, r4.2 * 4)) := rfl
  rw [hstep]
  simp only [store_gcov_tag_length_eq, store_gcov_unsigned_eq]
  rw [h.1, convert_functions_loop_eq gi _ _ gi.functions h.2]
  simp only
  cases b with
  | none =>
    simp only [Option.map_none']
    congr 1
    rw [hSS]
    simp only [List.length_append, List.length_cons, List.length_nil]
    omega
  | some f =>
    simp only [Option.map_some']
    congr 1
    rw [hSS]
    simp only [List.length_append, List.length_cons, List.length_nil]
    omega

theorem activeSlotsFrom_length (ct : Nat) (ms : List Bool) :
    (activeSlotsFrom ct ms).length = countActive ms := by
  induction ms generalizing ct with
  | nil => rfl
  | cons mg ms ih => cases mg <;> simp [activeSlotsFrom, countActive, ih]

theorem clear_values_loop_eq (values : List Nat) :
    clear_values_loop values.length values = List.replicate values.length 0 := by
  induction values with
  | nil => rfl
  | cons v vs ih => simp [clear_values_loop, List.replicate, ih]

theorem clear_counters_loop_eq (ms : List Bool) (ctrs : List gcov_ctr_info)
    (hlen : ctrs.length = countActive ms)
    (hwf : ∀ ci ∈ ctrs, ci.num = ci.values.length) :
    clear_counters_loop ms ctrs
      = ctrs.map (fun ci => { ci with values := List.replicate ci.values.length 0 }) := by
  induction ms generalizing ctrs with
  | nil =>
    have hc : ctrs = [] := List.length_eq_zero.mp (by simpa [countActive] using hlen)
    subst hc
    rfl
  | cons mg ms ih =>
    cases mg with
    | false =>
      exact ih ctrs (by simpa [countActive] using hlen) hwf
    | true =>
      cases ctrs with
      | nil => exact absurd hlen (by simp [countActive])
      | cons ci rest =>
        have hstep : clear_counters_loop (true :: ms) (ci :: rest)
            = { ci with values := clear_values_loop ci.num ci.values }
              :: clear_counters_loop ms rest := rfl
        have hv : clear_values_loop ci.num ci.values = List.replicate ci.values.length 0 := by
          rw [hwf ci (List.mem_cons_self ..)]
          exact clear_values_loop_eq ci.values
        rw [hstep, hv,
          ih rest (by simpa [countActive] using hlen)
            (fun c hc => hwf c (List.mem_cons_of_mem _ hc))]
        rfl

theorem clear_functions_loop_eq (merge : List Bool) (fns : List gcov_fn_info)
    (hwf : ∀ fi ∈ fns, fn_wf merge fi) :
    clear_functions_loop merge fns.length fns
      = fns.map (fun fi => { fi with ctrs := fi.ctrs.map (fun ci =>
          { ci with values := List.replicate ci.values.length 0 }) }) := by
  induction fns with
  | nil => rfl
  | cons fi fns ih =>
    have hfi : fn_wf merge fi := hwf fi (List.mem_cons_self ..)
    have hlen : fi.ctrs.length = countActive merge := by
      rw [hfi.1]
      exact activeSlotsFrom_length 0 merge
    have hstep : clear_functions_loop merge (fi :: fns).length (fi :: fns)
        = { fi with ctrs := clear_counters_loop merge fi.ctrs }
          :: clear_functions_loop merge fns.length fns := rfl
    rw [hstep, clear_counters_loop_eq merge fi.ctrs hlen (fun c hc => (hfi.2 c hc).1),
      ih (fun g hg => hwf g (List.mem_cons_of_mem _ hg))]
    rfl

theorem clear_bridge (gi : gcov_info) (h : info_wf gi) :
    gcov_clear_counters gi
      = { gi with functions := gi.functions.map (fun fi => { fi with ctrs := fi.ctrs.map (fun ci =>
          { ci with values := List.replicate ci.values.length 0 }) }) } := by
  show { gi with functions := clear_functions_loop gi.merge gi.n_functions gi.functions } = _
  rw [h.1, clear_functions_loop_eq gi.merge gi.functions h.2]

theorem length_flatMap_zip_specGroupWords (slots : List Nat) (ctrs : List gcov_ctr_info)
    (hlen : ctrs.length = slots.length)
    (hwf : ∀ ci ∈ ctrs, ci.num = ci.values.length) :
    (((slots.zip ctrs).flatMap specGroupWords)).length
      = (ctrs.map (fun ci => 2 + 2 * ci.num)).sum := by
  induction slots generalizing ctrs with
  | nil =>
    have hc : ctrs = [] := List.length_eq_zero.mp (by simpa using hlen)
    subst hc
    rfl
  | cons s slots ih =>
    cases ctrs with
    | nil => exact absurd hlen (by simp)
    | cons ci rest =>
      have hci : ci.num = ci.values.length := hwf ci (List.mem_cons_self ..)
      rw [List.zip_cons_cons, List.flatMap_cons, List.length_append, List.map_cons,
        List.sum_cons, ih rest (by simpa using hlen)
          (fun c hc => hwf c (List.mem_cons_of_mem _ hc))]
      simp only [specGroupWords, List.length_append, List.length_cons, List.length_nil,
        length_flatMap_specCounterWords, hci]

theorem specStream_length (gi : gcov_info) (h : info_wf gi) :
    (specStream gi).length
      = 4 + (gi.functions.map (fun fi =>
          5 + (fi.ctrs.map (fun ci => 2 + 2 * ci.num)).sum)).sum := by
  have hfl : ∀ fns : List gcov_fn_info, (∀ fi ∈ fns, fn_wf gi.merge fi) →
      (fns.flatMap (specFunctionWords gi.merge)).length
        = (fns.map (fun fi => 5 + (fi.ctrs.map (fun ci => 2 + 2 * ci.num)).sum)).sum := by
    intro fns
    induction fns with
    | nil => intro _; rfl
    | cons fi fns ih =>
      intro hwf
      have hfi : fn_wf gi.merge fi := hwf fi (List.mem_cons_self ..)
      rw [List.flatMap_cons, List.length_append, List.map_cons, List.sum_cons,
        ih (fun g hg => hwf g (List.mem_cons_of_mem _ hg))]
      have hg : (((activeSlots gi.merge).zip fi.ctrs).flatMap specGroupWords).length
          = (fi.ctrs.map (fun ci => 2 + 2 * ci.num)).sum :=
        length_flatMap_zip_specGroupWords (activeSlots gi.merge) fi.ctrs hfi.1
          (fun c hc => (hfi.2 c hc).1)
      simp [specFunctionWords, List.length_append, hg]
      omega
  show ([GCOV_DATA_MAGIC, gi.version, gi.stamp, gi.checksum]
      ++ gi.functions.flatMap (specFunctionWords gi.merge)).length = _
  rw [List.length_append, hfl gi.functions h.2]
  simp

theorem mem_zip_map {α β : Type} (F : α → β) (l : List α) (p : β × α)
    (hp : p ∈ (l.map F).zip l) : p.1 = F p.2 := by
  induction l with
  | nil => simp at hp
  | cons a l ih =>
    rw [List.map_cons, List.zip_cons_cons] at hp
    rcases List.mem_cons.mp hp with h | h
    · subst h; rfl
    · exact ih h

theorem countActive_append (ms₁ ms₂ : List Bool) :
    countActive (ms₁ ++ ms₂) = countActive ms₁ + countActive ms₂ := by
  induction ms₁ with
  | nil => simp [countActive]
  | cons mg ms ih =>
    cases mg with
    | false => simp [countActive, ih]
    | true =>
      simp [countActive, ih]
      omega

theorem clear_counters_loop_absent (ms₁ ms₂ : List Bool) (ctrs : List gcov_ctr_info) :
    clear_counters_loop (ms₁ ++ false :: ms₂) ctrs = clear_counters_loop (ms₁ ++ ms₂) ctrs := by
  induction ms₁ generalizing ctrs with
  | nil => rfl
  | cons mg ms ih =>
    cases mg with
    | false => exact ih ctrs
    | true =>
      cases ctrs with
      | nil => rfl
      | cons ci rest =>
        show _ :: clear_counters_loop (ms ++ false :: ms₂) rest
            = _ :: clear_counters_loop (ms ++ ms₂) rest
        rw [ih rest]

theorem clear_functions_loop_absent (ms₁ ms₂ : List Bool) (n : Nat) (fns : List gcov_fn_info) :
    clear_functions_loop (ms₁ ++ false :: ms₂) n fns = clear_functions_loop (ms₁ ++ ms₂) n fns := by
  induction n generalizing fns with
  | zero => rfl
  | succ k ih =>
    cases fns with
    | nil => rfl
    | cons fi rest =>
      show { fi with ctrs := clear_counters_loop (ms₁ ++ false :: ms₂) fi.ctrs }
            :: clear_functions_loop (ms₁ ++ false :: ms₂) k rest
          = { fi with ctrs := clear_counters_loop (ms₁ ++ ms₂) fi.ctrs }
            :: clear_functions_loop (ms₁ ++ ms₂) k rest
      rw [clear_counters_loop_absent, ih rest]

/-- The concrete coverage unit of the end-to-end fixture (spec §8): format
version `0x1234`, build stamp 100, checksum 200, one active counter kind,
one function with identity 7, zero checksums, and the two counter values
5 and 300000000000. -/
def exampleUnit : gcov_info :=
  ⟨0x1234, 100, 200, "a.gcda", [true], 1, [⟨7, 0, 0, [⟨2, [5, 300000000000]⟩]⟩]⟩

/-- Claim C1: for every structurally valid coverage unit, encoding with no
destination buffer (`NULL`) returns the same byte count as encoding with a
buffer; the filling call writes exactly the stream words at offsets
`0 .. count/4 - 1`, so the count equals four bytes per word written. -/
theorem c1_size_content_consistency (gi : gcov_info) (f : Buf) (h : info_wf gi) :
    (gcov_convert_to_gcda ⟨some f, gi⟩).2 = (gcov_convert_to_gcda ⟨none, gi⟩).2
    ∧ (gcov_convert_to_gcda ⟨some f, gi⟩).1.buffer = some (writeList f 0 (specStream gi))
    ∧ (gcov_convert_to_gcda ⟨none, gi⟩).2 = (specStream gi).length * 4 := by
  rw [gcda_bridge (some f) gi h, gcda_bridge none gi h]
  simp

/-- Witness for C1 at the concrete fixture unit. -/
theorem c1_size_content_consistency_witness :
    info_wf exampleUnit
    ∧ ((gcov_convert_to_gcda ⟨some (fun _ => 0), exampleUnit⟩).2
        = (gcov_convert_to_gcda ⟨none, exampleUnit⟩).2
      ∧ (gcov_convert_to_gcda ⟨some (fun _ => 0), exampleUnit⟩).1.buffer
        = some (writeList (fun _ => 0) 0 (specStream exampleUnit))
      ∧ (gcov_convert_to_gcda ⟨none, exampleUnit⟩).2 = (specStream exampleUnit).length * 4) :=
  ⟨by decide, c1_size_content_consistency exampleUnit (fun _ => 0) (by decide)⟩

/-- Claim C2: the encoded stream is exactly the header record, then one
function record per function in the unit's function-sequence order, each
followed by one counter-group record per active slot in ascending slot
order (with that group's values); neither order is changed by encoding. -/
theorem c2_stream_order (gi : gcov_info) (f : Buf) (h : info_wf gi) :
    (gcov_convert_to_gcda ⟨some f, gi⟩).1.buffer
      = some (writeList f 0 ([GCOV_DATA_MAGIC, gi.version, gi.stamp, gi.checksum]
          ++ gi.functions.flatMap (fun fi =>
            [GCOV_TAG_FUNCTION, 3, fi.ident, fi.lineno_checksum, fi.cfg_checksum]
              ++ ((activeSlots gi.merge).zip fi.ctrs).flatMap specGroupWords))) := by
  rw [gcda_bridge (some f) gi h]
  rfl

/-- Witness for C2 at the concrete fixture unit. -/
theorem c2_stream_order_witness :
    info_wf exampleUnit
    ∧ (gcov_convert_to_gcda ⟨some (fun _ => 0), exampleUnit⟩).1.buffer
      = some (writeList (fun _ => 0) 0
          ([GCOV_DATA_MAGIC, exampleUnit.version, exampleUnit.stamp, exampleUnit.checksum]
            ++ exampleUnit.functions.flatMap (fun fi =>
              [GCOV_TAG_FUNCTION, 3, fi.ident, fi.lineno_checksum, fi.cfg_checksum]
                ++ ((activeSlots exampleUnit.merge).zip fi.ctrs).flatMap specGroupWords))) :=
  ⟨by decide, c2_stream_order exampleUnit (fun _ => 0) (by decide)⟩

/-- Claim C3: the three record layouts, word for word — header
`[MAGIC_TAG, formatVersion][buildStamp][checksum]`, function record
`[FUNCTION_TAG, 3][identity][lineChecksum][structureChecksum]`, and
counter-group record `[COUNTER_TAG(kind), 2*count]` followed by each value
as a low word then a high word. -/
theorem c3_record_layouts (gi : gcov_info) (f : Buf) (h : info_wf gi) :
    (gcov_convert_to_gcda ⟨some f, gi⟩).1.buffer
      = some (writeList f 0 (([GCOV_DATA_MAGIC, gi.version] ++ [gi.stamp] ++ [gi.checksum])
          ++ gi.functions.flatMap (fun fi =>
            ([GCOV_TAG_FUNCTION, 3] ++ [fi.ident] ++ [fi.lineno_checksum] ++ [fi.cfg_checksum])
              ++ ((activeSlots gi.merge).zip fi.ctrs).flatMap (fun p =>
                [GCOV_TAG_FOR_COUNTER p.1, 2 * p.2.num]
                  ++ p.2.values.flatMap (fun v =>
                    [v % 4294967296, v / 4294967296]))))) := by
  rw [gcda_bridge (some f) gi h]
  rfl

/-- Witness for C3 at the concrete fixture unit. -/
theorem c3_record_layouts_witness :
    info_wf exampleUnit
    ∧ (gcov_convert_to_gcda ⟨some (fun _ => 0), exampleUnit⟩).1.buffer
      = some (writeList (fun _ => 0) 0
          (([GCOV_DATA_MAGIC, exampleUnit.version] ++ [exampleUnit.stamp]
              ++ [exampleUnit.checksum])
            ++ exampleUnit.functions.flatMap (fun fi =>
              ([GCOV_TAG_FUNCTION, 3] ++ [fi.ident] ++ [fi.lineno_checksum]
                  ++ [fi.cfg_checksum])
                ++ ((activeSlots exampleUnit.merge).zip fi.ctrs).flatMap (fun p =>
                  [GCOV_TAG_FOR_COUNTER p.1, 2 * p.2.num]
                    ++ p.2.values.flatMap (fun v =>
                      [v % 4294967296, v / 4294967296]))))) :=
  ⟨by decide, c3_record_layouts exampleUnit (fun _ => 0) (by decide)⟩

/-- Claim C4: for every 64-bit counter value, `store_gcov_counter` writes
exactly two consecutive 32-bit words, first the low 32 bits (`v mod 2^32`),
then the upper 32 bits (`v div 2^32`), and reports two words stored. -/
theorem c4_store_counter_split (gi : gcov_info) (f : Buf) (off v : Nat)
    (h : v < 18446744073709551616) :
    store_gcov_counter ⟨some f, gi⟩ off v
      = (⟨some (writeList f off [v % 4294967296, v / 4294967296]), gi⟩, 2) := by
  rw [store_gcov_counter_eq (some f) gi off v h]
  rfl

/-- Witness for C4 at the fixture's large counter value. -/
theorem c4_store_counter_split_witness :
    300000000000 < 18446744073709551616
    ∧ store_gcov_counter ⟨some (fun _ => 0), exampleUnit⟩ 0 300000000000
      = (⟨some (writeList (fun _ => 0) 0
          [300000000000 % 4294967296, 300000000000 / 4294967296]), exampleUnit⟩, 2) :=
  ⟨by decide, c4_store_counter_split exampleUnit (fun _ => 0) 0 300000000000 (by decide)⟩

/-- Claim C5: after `gcov_clear_counters` on a structurally valid unit,
every value in every active counter group is zero, while the version,
stamp, checksum, filename, mask, function count, every function's identity
and checksums, every group's `num`, and the length of every array are
unchanged. -/
theorem c5_clear_counters_frame (gi : gcov_info) (h : info_wf gi) :
    (gcov_clear_counters gi).version = gi.version
    ∧ (gcov_clear_counters gi).stamp = gi.stamp
    ∧ (gcov_clear_counters gi).checksum = gi.checksum
    ∧ (gcov_clear_counters gi).filename = gi.filename
    ∧ (gcov_clear_counters gi).merge = gi.merge
    ∧ (gcov_clear_counters gi).n_functions = gi.n_functions
    ∧ (gcov_clear_counters gi).functions.length = gi.functions.length
    ∧ ∀ p ∈ (gcov_clear_counters gi).functions.zip gi.functions,
        p.1.ident = p.2.ident
        ∧ p.1.lineno_checksum = p.2.lineno_checksum
        ∧ p.1.cfg_checksum = p.2.cfg_checksum
        ∧ p.1.ctrs.length = p.2.ctrs.length
        ∧ ∀ q ∈ p.1.ctrs.zip p.2.ctrs,
            q.1.num = q.2.num
            ∧ q.1.values.length = q.2.values.length
            ∧ ∀ v ∈ q.1.values, v = 0 := by
  rw [clear_bridge gi h]
  refine ⟨rfl, rfl, rfl, rfl, rfl, rfl, by simp, ?_⟩
  intro p hp
  have hp1 := mem_zip_map _ gi.functions p hp
  refine ⟨by rw [hp1], by rw [hp1], by rw [hp1], by rw [hp1]; simp, ?_⟩
  intro q hq
  rw [hp1] at hq
  have hq1 := mem_zip_map _ p.2.ctrs q hq
  refine ⟨by rw [hq1], by rw [hq1]; simp, ?_⟩
  intro v hv
  rw [hq1] at hv
  exact List.eq_of_mem_replicate hv

/-- Witness for C5 at the concrete fixture unit. -/
theorem c5_clear_counters_frame_witness :
    info_wf exampleUnit
    ∧ ((gcov_clear_counters exampleUnit).version = exampleUnit.version
      ∧ (gcov_clear_counters exampleUnit).stamp = exampleUnit.stamp
      ∧ (gcov_clear_counters exampleUnit).checksum = exampleUnit.checksum
      ∧ (gcov_clear_counters exampleUnit).filename = exampleUnit.filename
      ∧ (gcov_clear_counters exampleUnit).merge = exampleUnit.merge
      ∧ (gcov_clear_counters exampleUnit).n_functions = exampleUnit.n_functions
      ∧ (gcov_clear_counters exampleUnit).functions.length = exampleUnit.functions.length
      ∧ ∀ p ∈ (gcov_clear_counters exampleUnit).functions.zip exampleUnit.functions,
          p.1.ident = p.2.ident
          ∧ p.1.lineno_checksum = p.2.lineno_checksum
          ∧ p.1.cfg_checksum = p.2.cfg_checksum
          ∧ p.1.ctrs.length = p.2.ctrs.length
          ∧ ∀ q ∈ p.1.ctrs.zip p.2.ctrs,
              q.1.num = q.2.num
              ∧ q.1.values.length = q.2.values.length
              ∧ ∀ v ∈ q.1.values, v = 0) :=
  ⟨by decide, c5_clear_counters_frame exampleUnit (by decide)⟩

/-- Claim C6: inserting an absent slot (null merge entry) anywhere in the
mask adds zero bytes to the encoding of every structurally valid unit and
is skipped identically by reset; active slots consume the function's
counter groups one per slot, in ascending order, so the group records of a
function pair off exactly with its groups. -/
theorem c6_absent_slot_skipped (gi : gcov_info) (ms₁ ms₂ : List Bool) (f : Buf)
    (h : info_wf gi) (hm : gi.merge = ms₁ ++ ms₂) :
    (gcov_convert_to_gcda ⟨some f, { gi with merge := ms₁ ++ false :: ms₂ }⟩).2
        = (gcov_convert_to_gcda ⟨some f, gi⟩).2
    ∧ (gcov_convert_to_gcda ⟨none, { gi with merge := ms₁ ++ false :: ms₂ }⟩).2
        = (gcov_convert_to_gcda ⟨none, gi⟩).2
    ∧ (gcov_clear_counters { gi with merge := ms₁ ++ false :: ms₂ }).functions
        = (gcov_clear_counters gi).functions
    ∧ ∀ fi ∈ gi.functions, ((activeSlots gi.merge).zip fi.ctrs).length = fi.ctrs.length := by
  have hAS : (activeSlots (ms₁ ++ false :: ms₂)).length = (activeSlots gi.merge).length := by
    show (activeSlotsFrom 0 _).length = (activeSlotsFrom 0 _).length
    rw [hm, activeSlotsFrom_length, activeSlotsFrom_length, countActive_append,
      countActive_append]
    simp [countActive]
  have h' : info_wf { gi with merge := ms₁ ++ false :: ms₂ } := by
    refine ⟨h.1, ?_⟩
    intro fi hfi
    have hf := h.2 fi hfi
    exact ⟨by rw [hf.1, ← hAS], hf.2⟩
  have hc : (specStream { gi with merge := ms₁ ++ false :: ms₂ }).length
      = (specStream gi).length := by
    rw [specStream_length _ h', specStream_length gi h]
  refine ⟨?_, ?_, ?_, ?_⟩
  · rw [gcda_bridge (some f) _ h', gcda_bridge (some f) gi h]
    simp [hc]
  · rw [gcda_bridge none _ h', gcda_bridge none gi h]
    simp [hc]
  · show clear_functions_loop (ms₁ ++ false :: ms₂) gi.n_functions gi.functions
        = clear_functions_loop gi.merge gi.n_functions gi.functions
    rw [clear_functions_loop_absent, ← hm]
  · intro fi hfi
    have hf := h.2 fi hfi
    rw [List.length_zip, ← hf.1, Nat.min_self]

/-- Witness for C6 at the concrete fixture unit, inserting the absent slot
in front of its single active slot. -/
theorem c6_absent_slot_skipped_witness :
    info_wf exampleUnit
    ∧ exampleUnit.merge = [] ++ [true]
    ∧ ((gcov_convert_to_gcda ⟨some (fun _ => 0),
            { exampleUnit with merge := [] ++ false :: [true] }⟩).2
        = (gcov_convert_to_gcda ⟨some (fun _ => 0), exampleUnit⟩).2
      ∧ (gcov_convert_to_gcda ⟨none, { exampleUnit with merge := [] ++ false :: [true] }⟩).2
        = (gcov_convert_to_gcda ⟨none, exampleUnit⟩).2
      ∧ (gcov_clear_counters { exampleUnit with merge := [] ++ false :: [true] }).functions
        = (gcov_clear_counters exampleUnit).functions
      ∧ ∀ fi ∈ exampleUnit.functions,
          ((activeSlots exampleUnit.merge).zip fi.ctrs).length = fi.ctrs.length) :=
  ⟨by decide, by decide,
    c6_absent_slot_skipped exampleUnit [] [true] (fun _ => 0) (by decide) (by decide)⟩

/-- Claim C7: encoding has no side effect beyond the destination buffer:
the coverage tree carried through the encoder's memory state comes back
unchanged (hence every counter value and every metadata field keeps its
prior value), and buffer words at or past the written region keep their
prior contents. -/
theorem c7_no_side_effects (gi : gcov_info) (f : Buf) (h : info_wf gi) :
    (gcov_convert_to_gcda ⟨some f, gi⟩).1.info = gi
    ∧ (gcov_convert_to_gcda ⟨none, gi⟩).1.info = gi
    ∧ ∀ i, (specStream gi).length ≤ i →
        ((gcov_convert_to_gcda ⟨some f, gi⟩).1.buffer.getD (fun _ => 0)) i = f i := by
  rw [gcda_bridge (some f) gi h, gcda_bridge none gi h]
  refine ⟨rfl, rfl, ?_⟩
  intro i hi
  show writeList f 0 (specStream gi) i = f i
  exact writeList_ge f 0 (specStream gi) i (by omega)

/-- Witness for C7 at the concrete fixture unit. -/
theorem c7_no_side_effects_witness :
    info_wf exampleUnit
    ∧ ((gcov_convert_to_gcda ⟨some (fun _ => 0), exampleUnit⟩).1.info = exampleUnit
      ∧ (gcov_convert_to_gcda ⟨none, exampleUnit⟩).1.info = exampleUnit
      ∧ ∀ i, (specStream exampleUnit).length ≤ i →
          ((gcov_convert_to_gcda ⟨some (fun _ => 0), exampleUnit⟩).1.buffer.getD
            (fun _ => 0)) i = (fun _ => (0:Nat)) i) :=
  ⟨by decide, c7_no_side_effects exampleUnit (fun _ => 0) (by decide)⟩

/-- Counterexample for claim C8 as stated: on the fixture unit the encoder
emits `0xD964B800` as the low word of 300000000000 (indeed
`300000000000 = 0x45D964B800`), not the `0xD693A400` the claim lists, so
the claimed word sequence is not what the code produces. -/
theorem c8_end_to_end_counterexample :
    (List.range 15).map
        (((gcov_convert_to_gcda ⟨some (fun _ => 0), exampleUnit⟩).1.buffer).getD (fun _ => 0))
      ≠ [GCOV_DATA_MAGIC, 0x1234, 100, 200, GCOV_TAG_FUNCTION, 3, 7, 0, 0,
          GCOV_TAG_FOR_COUNTER 0, 4, 5, 0, 0xD693A400, 0x45] := by
  decide

/-- Claim C8 (amended): the fixture unit encodes to exactly the word
sequence `[MAGIC_TAG, 0x1234], 100, 200, [FUNCTION_TAG, 3], 7, 0, 0,
[COUNTER_TAG, 4], 5, 0, 0xD964B800, 0x45` — the last pair being the actual
low/high split of 300000000000 — and returns that word count (15) times 4
bytes, with or without a destination buffer. -/
theorem c8_end_to_end :
    (gcov_convert_to_gcda ⟨none, exampleUnit⟩).2 = 60
    ∧ (gcov_convert_to_gcda ⟨some (fun _ => 0), exampleUnit⟩).2 = 60
    ∧ (List.range 15).map
        (((gcov_convert_to_gcda ⟨some (fun _ => 0), exampleUnit⟩).1.buffer).getD (fun _ => 0))
      = [GCOV_DATA_MAGIC, 0x1234, 100, 200, GCOV_TAG_FUNCTION, 3, 7, 0, 0,
          GCOV_TAG_FOR_COUNTER 0, 4, 5, 0, 0xD964B800, 0x45] := by
  refine ⟨by decide, by decide, by decide⟩

theorem flatMap_replicate_zero (n : Nat) :
    (List.replicate n (0:Nat)).flatMap specCounterWords = List.replicate (2 * n) 0 := by
  induction n with
  | zero => rfl
  | succ k ih =>
    rw [List.replicate_succ, List.flatMap_cons, ih,
      show 2 * (k + 1) = 2 * k + 1 + 1 by omega,
      List.replicate_succ, List.replicate_succ]
    rfl

theorem clear_counters_wf (gi : gcov_info) (h : info_wf gi) :
    info_wf (gcov_clear_counters gi) := by
  rw [clear_bridge gi h]
  refine ⟨by simp [h.1], ?_⟩
  intro fi' hfi'
  simp only [List.mem_map] at hfi'
  obtain ⟨fi, hfi, heq⟩ := hfi'
  subst heq
  have hf := h.2 fi hfi
  refine ⟨by simp [hf.1], ?_⟩
  intro ci' hci'
  simp only [List.mem_map] at hci'
  obtain ⟨ci, hci, heq⟩ := hci'
  subst heq
  refine ⟨by simp [(hf.2 ci hci).1], ?_⟩
  intro v hv
  have : v = 0 := List.eq_of_mem_replicate hv
  omega

theorem sum_ctr_clear (ctrs : List gcov_ctr_info) :
    (List.map (fun ci => 2 + 2 * ci.num) (List.map (fun ci =>
        ({ ci with values := List.replicate ci.values.length 0 } : gcov_ctr_info)) ctrs)).sum
      = (List.map (fun ci => 2 + 2 * ci.num) ctrs).sum := by
  induction ctrs with
  | nil => rfl
  | cons ci rest ih => simp only [List.map_cons, List.sum_cons, ih]

theorem sum_formula_clear (fns : List gcov_fn_info) :
    (List.map (fun fi : gcov_fn_info =>
        5 + (List.map (fun ci : gcov_ctr_info => 2 + 2 * ci.num) fi.ctrs).sum)
        (List.map (fun fi : gcov_fn_info => { fi with ctrs := fi.ctrs.map (fun ci =>
          { ci with values := List.replicate ci.values.length 0 }) }) fns)).sum
      = (List.map (fun fi : gcov_fn_info =>
          5 + (List.map (fun ci : gcov_ctr_info => 2 + 2 * ci.num) fi.ctrs).sum) fns).sum := by
  induction fns with
  | nil => rfl
  | cons fi fns ih => simp only [List.map_cons, List.sum_cons, ih, sum_ctr_clear]

/-- Claim C9: encoding after `gcov_clear_counters` produces output of the
same length and the same structure as before — same header words, tags,
lengths, identities and checksums, all taken from the unchanged unit — with
every counter value emitted as zero words. -/
theorem c9_reset_then_encode (gi : gcov_info) (f : Buf) (h : info_wf gi) :
    (gcov_convert_to_gcda ⟨none, gcov_clear_counters gi⟩).2
        = (gcov_convert_to_gcda ⟨none, gi⟩).2
    ∧ (specStream (gcov_clear_counters gi)).length = (specStream gi).length
    ∧ (gcov_convert_to_gcda ⟨some f, gcov_clear_counters gi⟩).1.buffer
        = some (writeList f 0 ([GCOV_DATA_MAGIC, gi.version, gi.stamp, gi.checksum]
            ++ gi.functions.flatMap (fun fi =>
              [GCOV_TAG_FUNCTION, 3, fi.ident, fi.lineno_checksum, fi.cfg_checksum]
                ++ ((activeSlots gi.merge).zip fi.ctrs).flatMap (fun p =>
                  [GCOV_TAG_FOR_COUNTER p.1, 2 * p.2.num]
                    ++ List.replicate (2 * p.2.values.length) 0)))) := by
  have h' := clear_counters_wf gi h
  have hSS : specStream (gcov_clear_counters gi)
      = [GCOV_DATA_MAGIC, gi.version, gi.stamp, gi.checksum]
        ++ gi.functions.flatMap (fun fi =>
          [GCOV_TAG_FUNCTION, 3, fi.ident, fi.lineno_checksum, fi.cfg_checksum]
            ++ ((activeSlots gi.merge).zip fi.ctrs).flatMap (fun p =>
              [GCOV_TAG_FOR_COUNTER p.1, 2 * p.2.num]
                ++ List.replicate (2 * p.2.values.length) 0)) := by
    rw [clear_bridge gi h]
    simp only [specStream, specFunctionWords, specGroupWords, List.flatMap_map,
      List.zip_map_right, Function.comp, Prod.map, id_eq, flatMap_replicate_zero]
  have hlen : (specStream (gcov_clear_counters gi)).length = (specStream gi).length := by
    rw [specStream_length _ h', specStream_length gi h, clear_bridge gi h]
    simp only [sum_formula_clear]
  refine ⟨?_, hlen, ?_⟩
  · rw [gcda_bridge none _ h', gcda_bridge none gi h, hlen]
  · rw [gcda_bridge (some f) _ h', hSS]
    rfl

/-- Witness for C9 at the concrete fixture unit. -/
theorem c9_reset_then_encode_witness :
    info_wf exampleUnit
    ∧ ((gcov_convert_to_gcda ⟨none, gcov_clear_counters exampleUnit⟩).2
        = (gcov_convert_to_gcda ⟨none, exampleUnit⟩).2
      ∧ (specStream (gcov_clear_counters exampleUnit)).length
        = (specStream exampleUnit).length
      ∧ (gcov_convert_to_gcda ⟨some (fun _ => 0), gcov_clear_counters exampleUnit⟩).1.buffer
        = some (writeList (fun _ => 0) 0
            ([GCOV_DATA_MAGIC, exampleUnit.version, exampleUnit.stamp, exampleUnit.checksum]
              ++ exampleUnit.functions.flatMap (fun fi =>
                [GCOV_TAG_FUNCTION, 3, fi.ident, fi.lineno_checksum, fi.cfg_checksum]
                  ++ ((activeSlots exampleUnit.merge).zip fi.ctrs).flatMap (fun p =>
                    [GCOV_TAG_FOR_COUNTER p.1, 2 * p.2.num]
                      ++ List.replicate (2 * p.2.values.length) 0))))) :=
  ⟨by decide, c9_reset_then_encode exampleUnit (fun _ => 0) (by decide)⟩

/-- Claim C10: for every structurally valid unit the byte count equals the
closed form `4 * (4 + Σ functions (5 + Σ groups (2 + 2*num)))`, which does
not mention the counter values; in particular a unit with no functions
always encodes to exactly 16 bytes (the four-word header). -/
theorem c10_size_closed_form (gi : gcov_info) (b : Option Buf) (h : info_wf gi) :
    (gcov_convert_to_gcda ⟨b, gi⟩).2
      = 4 * (4 + (gi.functions.map (fun fi =>
          5 + (fi.ctrs.map (fun ci => 2 + 2 * ci.num)).sum)).sum)
    ∧ (gi.functions = [] → (gcov_convert_to_gcda ⟨b, gi⟩).2 = 16) := by
  have h1 : (gcov_convert_to_gcda ⟨b, gi⟩).2 = (specStream gi).length * 4 := by
    rw [gcda_bridge b gi h]
  constructor
  · rw [h1, specStream_length gi h]
    omega
  · intro he
    rw [h1, specStream_length gi h, he]
    simp

/-- Witness for C10 at the concrete fixture unit. -/
theorem c10_size_closed_form_witness :
    info_wf exampleUnit
    ∧ ((gcov_convert_to_gcda ⟨none, exampleUnit⟩).2
        = 4 * (4 + (exampleUnit.functions.map (fun fi =>
            5 + (fi.ctrs.map (fun ci => 2 + 2 * ci.num)).sum)).sum)
      ∧ (exampleUnit.functions = [] → (gcov_convert_to_gcda ⟨none, exampleUnit⟩).2 = 16)) :=
  ⟨by decide, c10_size_closed_form exampleUnit none (by decide)⟩
